import Mathlib

/-!
Verification of the Task Planning & Execution Lifecycle of the orders-agent
repository.  The data model and the frontend operations (API client,
PlanDisplay, Chat plan-state handling, SSE scanning) are embedded from the
TypeScript sources.  The backend Task Lifecycle Engine (Task Manager state
machine, Plan Generator, Task Executor) is not part of the inspected sources;
those components are modelled from the specification, as marked on each
definition.
-/

namespace OrdersAgent

/-! ## Data model

Embedded from the TypeScript interfaces `TaskItem`, `Phase`, `Plan`, `Task`
in the API client, which coincide with the spec §3 data model. -/

/-- Status union of a `TaskItem` or `Phase`:
`'pending' | 'in_progress' | 'completed' | 'failed' | 'skipped'`. -/
inductive ItemStatus
  | pending
  | inProgress
  | completed
  | failed
  | skipped
deriving DecidableEq, Repr

/-- TypeScript interface `TaskItem`: id, description, status, optional error. -/
structure TaskItem where
  id : String
  description : String
  status : ItemStatus
  error : Option String
deriving DecidableEq, Repr

/-- TypeScript interface `Phase`: id, name, optional description, tasks, status. -/
structure Phase where
  id : String
  name : String
  description : Option String
  tasks : List TaskItem
  status : ItemStatus
deriving DecidableEq, Repr

/-- TypeScript interface `Plan`: id, description, phases, createdAt,
optional approvedAt. -/
structure Plan where
  id : String
  description : String
  phases : List Phase
  createdAt : String
  approvedAt : Option String
deriving DecidableEq, Repr

/-- The `status` object of a `Task` snapshot: state, optional message,
timestamp. -/
structure TaskSnapshotStatus where
  state : String
  message : Option String
  timestamp : String
deriving DecidableEq, Repr

/-- TypeScript interface `Task` (the Task Record snapshot returned by the
control endpoints): id, status, optional plan. The artifacts/history/metadata
fields are opaque to all claims and omitted. -/
structure Task where
  id : String
  status : TaskSnapshotStatus
  plan : Option Plan
deriving DecidableEq, Repr

/-! ## API client control operations (C7)

The five task-control functions of the API client each issue a `fetch` and
then run: `if (!response.ok) throw new Error(. . .: ${response.status});
return response.json();`.  The HTTP exchange is embedded as an explicit
`FetchResponse` argument: `ok` and `status` mirror the response object, and
`body` is the value `response.json()` parses to.  Throwing is embedded as
`Except.error` carrying the message. -/

/-- The part of a `fetch` response the control operations inspect: `ok`,
`status`, and the JSON-decoded body. -/
structure FetchResponse where
  ok : Bool
  status : Nat
  body : Task
deriving DecidableEq, Repr

/-- Embedding of `approvePlan(taskId)`: POST to `/a2a/tasks/{taskId}/approve`; throws
`Failed to approve plan: ${response.status}` unless `response.ok`. -/
def approvePlan (taskId : String) (resp : FetchResponse) : Except String Task :=
  if !resp.ok then
    .error ("Failed to approve plan: " ++ toString resp.status)
  else
    .ok resp.body

/-- Embedding of `rejectPlan(taskId, feedback)`: POST with body `{ feedback }`; throws
`Failed to reject plan: ${response.status}` unless `response.ok`. -/
def rejectPlan (taskId : String) (feedback : String) (resp : FetchResponse) :
    Except String Task :=
  if !resp.ok then
    .error ("Failed to reject plan: " ++ toString resp.status)
  else
    .ok resp.body

/-- Embedding of `pauseTask(taskId)`: POST; throws `Failed to pause task: ${response.status}`
unless `response.ok`. -/
def pauseTask (taskId : String) (resp : FetchResponse) : Except String Task :=
  if !resp.ok then
    .error ("Failed to pause task: " ++ toString resp.status)
  else
    .ok resp.body

/-- Embedding of `resumeTask(taskId)`: POST; throws `Failed to resume task: ${response.status}`
unless `response.ok`. -/
def resumeTask (taskId : String) (resp : FetchResponse) : Except String Task :=
  if !resp.ok then
    .error ("Failed to resume task: " ++ toString resp.status)
  else
    .ok resp.body

/-- Embedding of `cancelTask(taskId)`: POST; throws `Failed to cancel task: ${response.status}`
unless `response.ok`. -/
def cancelTask (taskId : String) (resp : FetchResponse) : Except String Task :=
  if !resp.ok then
    .error ("Failed to cancel task: " ++ toString resp.status)
  else
    .ok resp.body

/-- Substring containment on strings, expressed on the underlying character
lists. -/
def strContains (s t : String) : Prop :=
  ∃ a b, s.toList = a ++ t.toList ++ b

/-- A sample task snapshot used by concrete witnesses. -/
def sampleTask : Task :=
  { id := "t1"
    status := { state := "submitted", message := none, timestamp := "0" }
    plan := none }

/-! ## Chat component plan-state handling (C5, C6)

`Chat.handleSubmit` iterates over `streamChat(...)` events.  The declared
`StreamEvent.type` union of the API client is
`"message" | "tool_use" | "tool_result" | "error" | "done"`, but at runtime
the type field is whatever string followed `event: ` on the wire, and the
Chat component additionally branches on `"status"` and `"plan_update"`.
The loop's effect on the plan-related component state
(`currentTaskId`, `currentPlan`, `taskState`) is embedded below; the
message/tool branches of the loop do not touch these three fields. -/

/-- Fields of `StreamEvent.data` read by the Chat component.  `state` stands
for `data.status?.state`.  A missing/null JSON field is `none`. -/
structure EventData where
  taskId : Option String
  state : Option String
  plan : Option Plan
  content : Option String
  tool : Option String
  result : Option String
  errorMsg : Option String
deriving DecidableEq, Repr

/-- A stream event as the Chat component sees it: the `type` string produced
by the SSE scanner together with the parsed data object. -/
structure StreamEvent where
  type : String
  data : EventData
deriving DecidableEq, Repr

/-- The declared `StreamEvent["type"]` union of the API client. -/
def streamEventKinds : List String :=
  ["message", "tool_use", "tool_result", "error", "done"]

/-- The plan-related Chat component state: `currentTaskId`, `currentPlan`,
`taskState`. -/
structure ChatPlanState where
  currentTaskId : Option String
  currentPlan : Option Plan
  taskState : String
deriving DecidableEq, Repr

/-- Effect of one stream event on the plan-related Chat state, embedded from
the `status` / `plan_update` branches of `Chat.handleSubmit`.  Inside the
`status` branch the order is: set `currentTaskId` if `statusData.taskId` is
truthy; then, if `statusData.status?.state` is truthy, set `taskState` and
clear `currentPlan`/`currentTaskId` when the new state is
`completed`/`failed`/`canceled`; then set `currentPlan` if `statusData.plan`
is present.  All other event kinds leave these fields unchanged. -/
def updateOnEvent (st : ChatPlanState) (e : StreamEvent) : ChatPlanState :=
  if e.type = "status" then
    let st1 :=
      match e.data.taskId with
      | some tid => if tid = "" then st else { st with currentTaskId := some tid }
      | none => st
    let st2 :=
      match e.data.state with
      | some ns =>
          if ns = "" then st1
          else
            let stS := { st1 with taskState := ns }
            if ns = "completed" ∨ ns = "failed" ∨ ns = "canceled" then
              { stS with currentPlan := none, currentTaskId := none }
            else stS
      | none => st1
    match e.data.plan with
    | some p => { st2 with currentPlan := some p }
    | none => st2
  else if e.type = "plan_update" then
    match e.data.plan with
    | some p => { st with currentPlan := some p }
    | none => st
  else st

/-- A concrete plan used by counterexamples and witnesses. -/
def samplePlan : Plan :=
  { id := "p1"
    description := "demo plan"
    phases := [{ id := "ph1", name := "Phase 1", description := none
                 tasks := [{ id := "it1", description := "do x"
                             status := .completed, error := none }]
                 status := .completed }]
    createdAt := "0"
    approvedAt := some "1" }

/-- A status event reporting terminal state failed, with no plan snapshot. -/
def failedStatusEvent : StreamEvent :=
  { type := "status"
    data := { taskId := none, state := some "failed", plan := none
              content := none, tool := none, result := none, errorMsg := none } }

/-- A plan_update event carrying a full plan snapshot. -/
def planUpdateEvent : StreamEvent :=
  { type := "plan_update"
    data := { taskId := none, state := none, plan := some samplePlan
              content := none, tool := none, result := none, errorMsg := none } }

/-! ## Task Manager state machine (C1)

The Task Lifecycle Engine is a backend component of this repository that is
not among the inspected sources (only its HTTP clients and documentation
are), so it is modelled from the specification. -/

/-- Modelled from the spec: the lifecycle enum of a Task Record (§4.4),
states SUBMITTED, PLANNING, AWAITING_APPROVAL, EXECUTING, PAUSED and the
terminal COMPLETED, FAILED, CANCELED. -/
inductive TaskState
  | submitted
  | planning
  | awaitingApproval
  | executing
  | paused
  | completed
  | failed
  | canceled
deriving DecidableEq, Repr

/-- The five externally invokable control operations of the Task Manager. -/
inductive ControlOp
  | approve
  | reject
  | pause
  | resume
  | cancel
deriving DecidableEq, Repr

/-- Modelled from the spec: the Task Record (§3) — lifecycle state, optional
current Plan, optional rejection feedback, and the originating request text.
The concurrency primitives and event history are not needed by the claims. -/
structure TaskRecord where
  id : String
  state : TaskState
  plan : Option Plan
  feedback : Option String
  requestText : String
deriving DecidableEq, Repr

/-- Modelled from the spec: the permitted source state(s) of each control
operation, as listed in the §4.4 transition table. -/
def expectedStates : ControlOp → List TaskState
  | .approve => [.awaitingApproval]
  | .reject => [.awaitingApproval]
  | .pause => [.executing]
  | .resume => [.paused]
  | .cancel => [.executing, .paused]

/-- A state-conflict error: identifies the record's current state and the
expected state(s) for the attempted operation. -/
structure StateConflict where
  current : TaskState
  expected : List TaskState
deriving DecidableEq, Repr

/-- The §4.4 transition table rows for the five control operations, as data:
(operation, permitted source state, target state). -/
def transitionTable : List (ControlOp × TaskState × TaskState) :=
  [(.approve, .awaitingApproval, .executing),
   (.reject, .awaitingApproval, .planning),
   (.pause, .executing, .paused),
   (.resume, .paused, .executing),
   (.cancel, .executing, .canceled),
   (.cancel, .paused, .canceled)]

/-- Modelled from the spec: applying a control operation to a Task Record.
Each operation validates the current state per the §4.4 table; on a permitted
source state it performs the listed transition, otherwise it fails with a
StateConflict naming the current state and the expected state(s), leaving the
record untouched. -/
def applyControl : ControlOp → TaskRecord → Except StateConflict TaskRecord
  | .approve, r =>
    if r.state = .awaitingApproval then .ok { r with state := .executing }
    else .error ⟨r.state, expectedStates .approve⟩
  | .reject, r =>
    if r.state = .awaitingApproval then .ok { r with state := .planning }
    else .error ⟨r.state, expectedStates .reject⟩
  | .pause, r =>
    if r.state = .executing then .ok { r with state := .paused }
    else .error ⟨r.state, expectedStates .pause⟩
  | .resume, r =>
    if r.state = .paused then .ok { r with state := .executing }
    else .error ⟨r.state, expectedStates .resume⟩
  | .cancel, r =>
    if r.state = .executing ∨ r.state = .paused then .ok { r with state := .canceled }
    else .error ⟨r.state, expectedStates .cancel⟩

/-! ## Plan Generator (C2)

Backend component, not among the inspected sources; modelled from the
specification (§4.2). -/

/-- Structural validity of a generated Plan: `phases` is non-empty and every
phase has a non-empty `tasks` list; anything else counts as content that does
not parse into a valid Plan (empty phases, malformed structure). -/
def validPlan (p : Plan) : Bool :=
  !p.phases.isEmpty && p.phases.all (fun ph => !ph.tasks.isEmpty)

/-- Modelled from the spec: the deterministic fallback Plan — exactly one
phase containing exactly one TaskItem whose description is the original
request text verbatim (§4.2 failure policy). -/
def fallbackPlan (requestText : String) : Plan :=
  { id := "fallback"
    description := requestText
    phases := [{ id := "phase-1", name := "Execute request", description := none
                 tasks := [{ id := "task-1", description := requestText
                             status := .pending, error := none }]
                 status := .pending }]
    createdAt := "0"
    approvedAt := none }

/-- Modelled from the spec: `generate(requestText, priorFeedback) → Plan`
(§4.2).  The LLM capability is the opaque argument `cap`, invoked with the
request text and the optional prior feedback; `cap` returns `none` when the
invocation fails and otherwise the Plan its output parses to.  When the
invocation fails or the result is not a valid Plan, the deterministic
fallback Plan is returned. -/
def generate (cap : String → Option String → Option Plan)
    (requestText : String) (priorFeedback : Option String) : Plan :=
  match cap requestText priorFeedback with
  | some p => if validPlan p then p else fallbackPlan requestText
  | none => fallbackPlan requestText

/-! ## Task Executor (C3, C4)

Backend component, not among the inspected sources; modelled from the
specification (§4.3).  The LLM/tool capability is the opaque argument `cap`
(success value or failure detail per TaskItem description).  The cancel
signal is sampled before each TaskItem as `isCanceled n`, where `n` counts
the TaskItem boundaries passed so far; the pause/resume blocking wait (a
concurrency primitive) is not part of the modelled paths. -/

/-- Executor outcome: `completed`, `failed` or `canceled`. -/
inductive ExecOutcome
  | completed
  | failed
  | canceled
deriving DecidableEq, Repr

/-- TaskItem status transition on capability success. -/
def completeItem (it : TaskItem) : TaskItem :=
  { it with status := .completed }

/-- TaskItem status transition on capability failure, with the failure detail
recorded in `error`. -/
def failItem (e : String) (it : TaskItem) : TaskItem :=
  { it with status := .failed, error := some e }

/-- TaskItem status transition on cancellation: not-yet-started items are
marked skipped. -/
def skipItem (it : TaskItem) : TaskItem :=
  { it with status := .skipped }

/-- A fully executed phase: all items completed, phase status completed. -/
def completedPhase (ph : Phase) : Phase :=
  { ph with status := .completed, tasks := ph.tasks.map completeItem }

/-- A phase never reached after cancellation: marked skipped with all its
items skipped. -/
def skipPhase (ph : Phase) : Phase :=
  { ph with status := .skipped, tasks := ph.tasks.map skipItem }

/-- Result of walking the TaskItems of one phase: updated items, next
boundary counter, outcome. -/
structure TasksResult where
  items : List TaskItem
  counter : Nat
  outcome : ExecOutcome
deriving DecidableEq, Repr

/-- Result of walking a list of phases: updated phases, next boundary
counter, outcome. -/
structure PhasesResult where
  phases : List Phase
  counter : Nat
  outcome : ExecOutcome
deriving DecidableEq, Repr

/-- Modelled from the spec: sequential execution of one phase's TaskItems
(§4.3).  Before each TaskItem the cancel signal is checked: if set, the
current and all remaining items are marked skipped and the outcome is
canceled.  Otherwise the capability runs the item: on success the item is
completed and the walk continues; on failure the item is marked failed with
the failure detail and the walk halts with outcome failed, the remaining
items untouched. -/
def execTasks (cap : String → Except String String) (isCanceled : Nat → Bool) :
    Nat → List TaskItem → TasksResult
  | n, [] => ⟨[], n, .completed⟩
  | n, it :: rest =>
    if isCanceled n then ⟨(it :: rest).map skipItem, n, .canceled⟩
    else
      match cap it.description with
      | .ok _ =>
        let r := execTasks cap isCanceled (n + 1) rest
        ⟨completeItem it :: r.items, r.counter, r.outcome⟩
      | .error e => ⟨failItem e it :: rest, n + 1, .failed⟩

/-- Modelled from the spec: strict in-order walk of the phases (§4.3).  A
phase whose items all complete is marked completed and the walk continues; a
failing phase is marked failed and the walk halts, subsequent phases
untouched; on cancellation the current phase and all subsequent phases are
marked skipped. -/
def execPhases (cap : String → Except String String) (isCanceled : Nat → Bool) :
    Nat → List Phase → PhasesResult
  | n, [] => ⟨[], n, .completed⟩
  | n, ph :: rest =>
    let t := execTasks cap isCanceled n ph.tasks
    match t.outcome with
    | .completed =>
      let r := execPhases cap isCanceled t.counter rest
      ⟨{ ph with tasks := t.items, status := .completed } :: r.phases,
       r.counter, r.outcome⟩
    | .failed =>
      ⟨{ ph with tasks := t.items, status := .failed } :: rest, t.counter, .failed⟩
    | .canceled =>
      ⟨{ ph with tasks := t.items, status := .skipped } :: rest.map skipPhase,
       t.counter, .canceled⟩

/-- Modelled from the spec: `execute(plan, controls) → ExecutionOutcome`,
returning the plan with updated statuses together with the outcome. -/
def executePlan (cap : String → Except String String) (isCanceled : Nat → Bool)
    (p : Plan) : Plan × ExecOutcome :=
  let r := execPhases cap isCanceled 0 p.phases
  ({ p with phases := r.phases }, r.outcome)

/-- The TaskItems of a list of phases, in execution order. -/
def phaseItems (phs : List Phase) : List TaskItem :=
  phs.flatMap (·.tasks)

/-- The TaskItems of a plan, in execution order. -/
def allItems (p : Plan) : List TaskItem :=
  phaseItems p.phases

/-- Modelled from the spec: the Task Manager's handling of the executor
outcome (§4.4): completed clears the active plan reference, failed retains
the failed Plan for inspection, canceled retains the unwound Plan. -/
def applyOutcome (r : TaskRecord) (p : Plan) : ExecOutcome → TaskRecord
  | .completed => { r with state := .completed, plan := none }
  | .failed => { r with state := .failed, plan := some p }
  | .canceled => { r with state := .canceled, plan := some p }

/-- A capability for concrete executor runs: fails on description "bad",
succeeds otherwise. -/
def demoCap : String → Except String String :=
  fun d => if d = "bad" then .error "boom" else .ok "done"

/-- Pending TaskItem "fetch" of the demo plan. -/
def itemA1 : TaskItem :=
  { id := "a1", description := "fetch", status := .pending, error := none }

/-- Pending failing TaskItem "bad" of the demo plan. -/
def itemB1 : TaskItem :=
  { id := "b1", description := "bad", status := .pending, error := none }

/-- Pending TaskItem "sum" of the demo plan. -/
def itemB2 : TaskItem :=
  { id := "b2", description := "sum", status := .pending, error := none }

/-- First phase of the demo plan. -/
def phaseA : Phase :=
  { id := "A", name := "collect", description := none
    tasks := [itemA1], status := .pending }

/-- Second phase of the demo plan, whose first item fails under demoCap. -/
def phaseB : Phase :=
  { id := "B", name := "process", description := none
    tasks := [itemB1, itemB2], status := .pending }

/-- A two-phase plan whose second phase starts with a failing item. -/
def demoFailPlan : Plan :=
  { id := "p2", description := "two phases", phases := [phaseA, phaseB]
    createdAt := "0", approvedAt := some "1" }

/-- The executor's cancel signal when cancellation is requested at TaskItem
boundary `c`: the signal reads false at the boundaries before `c` and true
from boundary `c` on. -/
def cancelFrom (c : Nat) : Nat → Bool :=
  fun n => decide (c ≤ n)

/-! ## Rejection feedback flow (C9)

`PlanDisplay.handleReject` submits `rejectFeedback.trim()` through `onReject`
(only when the trimmed feedback is truthy, i.e. non-empty), Chat's
`handleRejectPlan` forwards it unchanged to `rejectPlan(currentTaskId,
feedback)`, whose request body is `JSON.stringify({ feedback })`.  The
backend reject handling and regeneration are modelled from the spec. -/

/-- Character-level trim, dropping leading and trailing whitespace; the
behaviour of the JavaScript `trim()` call in `PlanDisplay.handleReject`. -/
def trimChars (l : List Char) : List Char :=
  ((l.dropWhile Char.isWhitespace).reverse.dropWhile Char.isWhitespace).reverse

/-- String form of `trimChars`. -/
def jsTrim (s : String) : String :=
  String.mk (trimChars s.toList)

/-- Embedding of `PlanDisplay.handleReject`: calls `onReject(rejectFeedback.trim())` only
when `rejectFeedback.trim()` is truthy; the value passed on, if any. -/
def handleReject (rejectFeedback : String) : Option String :=
  if jsTrim rejectFeedback = "" then none
  else some (jsTrim rejectFeedback)

/-- Embedding of `Chat.handleRejectPlan`: forwards the feedback unchanged to
`rejectPlan(currentTaskId, feedback)` when a current task id is set. -/
def handleRejectPlan (currentTaskId : Option String) (feedback : String) :
    Option (String × String) :=
  match currentTaskId with
  | some tid => some (tid, feedback)
  | none => none

/-- The JSON body `{ feedback }` sent by `rejectPlan`. -/
structure RejectRequestBody where
  feedback : String
deriving DecidableEq, Repr

/-- Construction of `rejectPlan`'s request body: the feedback field is set to
the argument unchanged. -/
def rejectPlanRequestBody (feedback : String) : RejectRequestBody :=
  ⟨feedback⟩

/-- Modelled from the spec: the Task Manager's reject handling (§4.4 row
AWAITING_APPROVAL, reject(feedback), PLANNING): validate the transition and
store the feedback on the record. -/
def managerReject (r : TaskRecord) (feedback : String) :
    Except StateConflict TaskRecord :=
  match applyControl .reject r with
  | .ok r' => .ok { r' with feedback := some feedback }
  | .error e => .error e

/-- Modelled from the spec: regeneration after a rejection — the Plan
Generator is re-invoked with the record's request text and stored feedback. -/
def regenerate (cap : String → Option String → Option Plan) (r : TaskRecord) :
    Plan :=
  generate cap r.requestText r.feedback

/-- The end-to-end rejection flow from the feedback text the user submitted
in PlanDisplay down to the regeneration call: returns the regenerated plan,
or none when no rejection was submitted or the transition was refused. -/
def rejectFlow (cap : String → Option String → Option Plan) (r : TaskRecord)
    (currentTaskId : Option String) (typed : String) : Option Plan :=
  match handleReject typed with
  | none => none
  | some fb =>
    match handleRejectPlan currentTaskId fb with
    | none => none
    | some (_, fb') =>
      match managerReject r (rejectPlanRequestBody fb').feedback with
      | .ok r' => some (regenerate cap r')
      | .error _ => none

/-- A valid single-phase probe plan body. -/
def probePhase : Phase :=
  { id := "pr", name := "probe", description := none
    tasks := [{ id := "pt", description := "probe task", status := .pending
                error := none }]
    status := .pending }

/-- A capability that reveals the feedback it received as the generated
plan's description. -/
def probeCap : String → Option String → Option Plan :=
  fun _ fb =>
    some { id := "probe", description := fb.getD "", phases := [probePhase]
           createdAt := "0", approvedAt := none }

/-- A record awaiting approval, with request text "orig request". -/
def awaitingRecord : TaskRecord :=
  ⟨"t1", .awaitingApproval, none, none, "orig request"⟩

/-! ## SSE stream scanning in streamChat (C8, C10)

`streamChat` reads byte chunks, accumulates them in a string buffer, splits
the buffer on newlines keeping the trailing segment (`lines.pop()`), and
scans the complete lines: an `event: ` line stores the event name, a `data: `
line with a non-empty stored event name and non-empty payload attempts
`JSON.parse` — yielding an event on success and silently skipping the pair
on failure, resetting the accumulator either way.  The accumulator variables
are declared inside the chunk loop, so they reset at each chunk.  The chunk
text is modelled as a character list and `JSON.parse` as an opaque parsing
function `parse` returning `none` exactly when it would throw. -/

/-- The characters of the SSE field header matched by
`line.startsWith("event: ")` and sliced off by `line.slice(7)`. -/
def evHeader : List Char :=
  "event: ".toList

/-- The characters of the SSE field header matched by
`line.startsWith("data: ")` and sliced off by `line.slice(6)`. -/
def dtHeader : List Char :=
  "data: ".toList

/-- The line scanner's accumulator: `currentEvent` and `currentData`. -/
structure ScanState where
  currentEvent : List Char
  currentData : List Char
deriving DecidableEq, Repr

/-- The accumulator's initial value: both fields empty, as at the top of each
chunk iteration. -/
def initScan : ScanState :=
  ⟨[], []⟩

/-- One line of the scanner loop: an event line stores the name after the
header; a data line stores the payload and, when both accumulators are
non-empty (truthy), attempts the parse — emitting the pair on success and
nothing on failure, resetting the accumulator in both cases; any other line
is ignored. -/
def procLine {J : Type} (parse : List Char → Option J) (s : ScanState)
    (line : List Char) : ScanState × List (List Char × J) :=
  if line.take 7 = evHeader then
    (⟨line.drop 7, s.currentData⟩, [])
  else if line.take 6 = dtHeader then
    let d := line.drop 6
    if s.currentEvent ≠ [] ∧ d ≠ [] then
      match parse d with
      | some j => (⟨[], []⟩, [(s.currentEvent, j)])
      | none => (⟨[], []⟩, [])
    else (⟨s.currentEvent, d⟩, [])
  else (s, [])

/-- The scanner folded over a list of lines, returning the final accumulator
and the emitted events in order. -/
def procLines {J : Type} (parse : List Char → Option J) (s : ScanState) :
    List (List Char) → ScanState × List (List Char × J)
  | [] => (s, [])
  | l :: ls =>
    ((procLines parse (procLine parse s l).1 ls).1,
     (procLine parse s l).2 ++ (procLines parse (procLine parse s l).1 ls).2)

/-- Splitting a buffer on newlines into the complete lines and the trailing
segment, mirroring `lines = buffer.split("\n"); buffer = lines.pop()`. -/
def splitLines : List Char → List (List Char) × List Char
  | [] => ([], [])
  | c :: cs =>
    let p := splitLines cs
    if c = '\n' then ([] :: p.1, p.2)
    else
      match p.1 with
      | [] => ([], c :: p.2)
      | l :: ls => ((c :: l) :: ls, p.2)

/-- One iteration of the read loop: append the chunk to the buffer, split
off the complete lines, scan them from a fresh accumulator, and keep the
trailing segment as the new buffer. -/
def chunkStep {J : Type} (parse : List Char → Option J)
    (buf chunk : List Char) : List Char × List (List Char × J) :=
  ((splitLines (buf ++ chunk)).2,
   (procLines parse initScan (splitLines (buf ++ chunk)).1).2)

/-- The read loop over the stream's chunks; at end of stream the loop breaks,
discarding whatever trailing segment remains in the buffer. -/
def streamLoop {J : Type} (parse : List Char → Option J) :
    List Char → List (List Char) → List (List Char × J)
  | _, [] => []
  | buf, ch :: rest =>
    (chunkStep parse buf ch).2 ++ streamLoop parse (chunkStep parse buf ch).1 rest

/-- The events `streamChat` yields for a stream delivered as the given
chunks. -/
def streamChat {J : Type} (parse : List Char → Option J)
    (chunks : List (List Char)) : List (List Char × J) :=
  streamLoop parse [] chunks

/-- The event/data line pairs occurring in a byte stream, in order: the
scan of all its complete lines from a fresh accumulator, independent of any
chunking. -/
def streamEventOccurrences {J : Type} (parse : List Char → Option J)
    (stream : List Char) : List (List Char × J) :=
  (procLines parse initScan (splitLines stream).1).2

/-- An SSE `event: ` line carrying the event name `e`. -/
def mkEventLine (e : List Char) : List Char :=
  evHeader ++ e

/-- An SSE `data: ` line carrying the payload `d`. -/
def mkDataLine (d : List Char) : List Char :=
  dtHeader ++ d

/-! ## Theorems -/

/-- Appending a string on the left preserves substring containment of the
right part. -/
theorem strContains_append_left (p t : String) : strContains (p ++ t) t :=
  ⟨p.toList, [], by simp [strContains, String.toList]⟩

/-- C7. For each of approvePlan, rejectPlan, pauseTask, resumeTask, cancelTask:
when the HTTP response is ok the operation returns the parsed Task snapshot,
and when it is not ok it throws an error whose message contains the HTTP
status code. -/
theorem control_api_result (tid fb : String) (r : FetchResponse) :
    (r.ok = true →
      approvePlan tid r = .ok r.body ∧
      rejectPlan tid fb r = .ok r.body ∧
      pauseTask tid r = .ok r.body ∧
      resumeTask tid r = .ok r.body ∧
      cancelTask tid r = .ok r.body) ∧
    (r.ok = false →
      (∃ m, approvePlan tid r = .error m ∧ strContains m (toString r.status)) ∧
      (∃ m, rejectPlan tid fb r = .error m ∧ strContains m (toString r.status)) ∧
      (∃ m, pauseTask tid r = .error m ∧ strContains m (toString r.status)) ∧
      (∃ m, resumeTask tid r = .error m ∧ strContains m (toString r.status)) ∧
      (∃ m, cancelTask tid r = .error m ∧ strContains m (toString r.status))) := by
  constructor
  · intro hok
    simp [approvePlan, rejectPlan, pauseTask, resumeTask, cancelTask, hok]
  · intro hok
    exact ⟨⟨"Failed to approve plan: " ++ toString r.status,
            by simp [approvePlan, hok], strContains_append_left _ _⟩,
          ⟨"Failed to reject plan: " ++ toString r.status,
            by simp [rejectPlan, hok], strContains_append_left _ _⟩,
          ⟨"Failed to pause task: " ++ toString r.status,
            by simp [pauseTask, hok], strContains_append_left _ _⟩,
          ⟨"Failed to resume task: " ++ toString r.status,
            by simp [resumeTask, hok], strContains_append_left _ _⟩,
          ⟨"Failed to cancel task: " ++ toString r.status,
            by simp [cancelTask, hok], strContains_append_left _ _⟩⟩

/-- Witness for C7 at concrete responses: an ok response returns the body and
a 409 response produces an error message containing "409". -/
theorem control_api_result_witness :
    approvePlan "t1" ⟨true, 200, sampleTask⟩ = .ok sampleTask ∧
    (∃ m, approvePlan "t1" ⟨false, 409, sampleTask⟩ = .error m ∧
      strContains m (toString (409 : Nat))) :=
  ⟨((control_api_result "t1" "f" ⟨true, 200, sampleTask⟩).1 rfl).1,
   ((control_api_result "t1" "f" ⟨false, 409, sampleTask⟩).2 rfl).1⟩

/-- C5 counterexample. With a plan on display (`currentPlan = some samplePlan`)
a status event reporting the terminal state failed leaves `currentPlan = none`:
the client clears the plan display rather than keeping the last received Plan
visible, refuting the claim at this concrete input. -/
theorem plan_cleared_on_failed_cx :
    (updateOnEvent ⟨some "t1", some samplePlan, "executing"⟩
        failedStatusEvent).currentPlan = none ∧
    (⟨some "t1", some samplePlan, "executing"⟩ : ChatPlanState).currentPlan =
      some samplePlan := by
  constructor <;> rfl

/-- C5 as amended. On a status event reporting the terminal state failed and
carrying no plan snapshot, the client clears the plan display: `currentPlan`
and `currentTaskId` become none and `taskState` becomes "failed" (partial
progress stays visible only if the event itself carries a plan snapshot,
which is then stored). -/
theorem plan_cleared_on_failed (st : ChatPlanState) (e : StreamEvent)
    (ht : e.type = "status") (hs : e.data.state = some "failed")
    (hp : e.data.plan = none) :
    (updateOnEvent st e).currentPlan = none ∧
    (updateOnEvent st e).currentTaskId = none ∧
    (updateOnEvent st e).taskState = "failed" := by
  cases htid : e.data.taskId <;>
    simp [updateOnEvent, ht, hs, hp, htid]

/-- Witness for C5's amended theorem at a concrete state and event. -/
theorem plan_cleared_on_failed_witness :
    (updateOnEvent ⟨some "t1", some samplePlan, "executing"⟩
        failedStatusEvent).currentPlan = none ∧
    (updateOnEvent ⟨some "t1", some samplePlan, "executing"⟩
        failedStatusEvent).currentTaskId = none ∧
    (updateOnEvent ⟨some "t1", some samplePlan, "executing"⟩
        failedStatusEvent).taskState = "failed" :=
  plan_cleared_on_failed ⟨some "t1", some samplePlan, "executing"⟩
    failedStatusEvent rfl rfl rfl

/-- C6 counterexample. The client consumes a `plan_update` event — a kind that
is neither `status` nor `progress`, and is not even in the declared
`StreamEvent` type union — for plan progress, and that event carries a full
plan snapshot which replaces `currentPlan`, refuting the claimed
status/progress dichotomy at this concrete input. -/
theorem plan_update_kind_cx :
    (updateOnEvent ⟨none, none, ""⟩ planUpdateEvent).currentPlan =
      some samplePlan ∧
    planUpdateEvent.type ≠ "status" ∧
    planUpdateEvent.type ≠ "progress" ∧
    planUpdateEvent.type ∉ streamEventKinds := by
  refine ⟨rfl, ?_, ?_, ?_⟩ <;> decide

/-- C6 as amended. The client consumes exactly the kinds `status` and
`plan_update` for plan progress: any event that changes the displayed plan is
of one of those two kinds, and a `plan_update` event carries a full plan
snapshot (not a delta) which becomes the displayed plan. -/
theorem plan_progress_event_kinds (st : ChatPlanState) (e : StreamEvent) :
    ((updateOnEvent st e).currentPlan ≠ st.currentPlan →
      e.type = "status" ∨ e.type = "plan_update") ∧
    (e.type = "plan_update" → ∀ p, e.data.plan = some p →
      (updateOnEvent st e).currentPlan = some p) := by
  constructor
  · intro hch
    by_cases h1 : e.type = "status"
    · exact Or.inl h1
    · by_cases h2 : e.type = "plan_update"
      · exact Or.inr h2
      · simp [updateOnEvent, h1, h2] at hch
  · intro h2 p hp
    have h1 : ¬ e.type = "status" := by
      rw [h2]; decide
    simp [updateOnEvent, h1, h2, hp]

/-- Witness for C6's amended theorem: the second component applied at the
concrete plan_update event. -/
theorem plan_progress_event_kinds_witness :
    (updateOnEvent ⟨none, none, ""⟩ planUpdateEvent).currentPlan =
      some samplePlan :=
  (plan_progress_event_kinds ⟨none, none, ""⟩ planUpdateEvent).2 rfl
    samplePlan rfl

/-- C1. For every Task Record and control operation: every transition listed
in the §4.4 table is performed exactly as listed, and whenever the current
state is not a permitted source state for the operation, the operation fails
with a StateConflict identifying the current state (and the expected states),
returning no modified record. -/
theorem state_machine_follows_table (op : ControlOp) (r : TaskRecord) :
    (∀ s', (op, r.state, s') ∈ transitionTable →
      applyControl op r = .ok { r with state := s' }) ∧
    ((∀ s', (op, r.state, s') ∉ transitionTable) →
      applyControl op r = .error ⟨r.state, expectedStates op⟩) := by
  rcases r with ⟨id, st, pl, fb, rt⟩
  cases op <;> cases st <;>
    simp [applyControl, transitionTable, expectedStates]

/-- Witness for C1: approve from AWAITING_APPROVAL performs the listed
transition to EXECUTING, and approve from PLANNING fails with a StateConflict
carrying the current state PLANNING and expected AWAITING_APPROVAL. -/
theorem state_machine_follows_table_witness :
    applyControl .approve ⟨"t", .awaitingApproval, none, none, "req"⟩ =
      .ok ⟨"t", .executing, none, none, "req"⟩ ∧
    applyControl .approve ⟨"t", .planning, none, none, "req"⟩ =
      .error ⟨.planning, [.awaitingApproval]⟩ :=
  ⟨(state_machine_follows_table .approve
      ⟨"t", .awaitingApproval, none, none, "req"⟩).1 .executing (by decide),
   (state_machine_follows_table .approve
      ⟨"t", .planning, none, none, "req"⟩).2
      (by intro s'; cases s' <;> decide)⟩

/-- C2. Every Plan produced by the Plan Generator has a non-empty `phases`
list in which every Phase has a non-empty `tasks` list; and whenever the
capability invocation fails or its output is not a valid Plan, the result is
the deterministic fallback: exactly one phase with exactly one TaskItem whose
description is the request text verbatim. -/
theorem generate_nonempty_and_fallback
    (cap : String → Option String → Option Plan)
    (rt : String) (fb : Option String) :
    (generate cap rt fb).phases ≠ [] ∧
    (∀ ph ∈ (generate cap rt fb).phases, ph.tasks ≠ []) ∧
    ((cap rt fb = none ∨ ∃ q, cap rt fb = some q ∧ validPlan q = false) →
      generate cap rt fb = fallbackPlan rt ∧
      (generate cap rt fb).phases.length = 1 ∧
      ∀ ph ∈ (generate cap rt fb).phases,
        ph.tasks.length = 1 ∧ ∀ it ∈ ph.tasks, it.description = rt) := by
  cases hcap : cap rt fb with
  | none =>
    refine ⟨by simp [generate, hcap, fallbackPlan], ?_, ?_⟩
    · intro ph hph
      simp [generate, hcap, fallbackPlan] at hph
      simp [hph]
    · intro _
      refine ⟨by simp [generate, hcap], by simp [generate, hcap, fallbackPlan], ?_⟩
      intro ph hph
      simp [generate, hcap, fallbackPlan] at hph
      simp [hph]
  | some q =>
    by_cases hv : validPlan q
    · have hgen : generate cap rt fb = q := by simp [generate, hcap, hv]
      have h1 : ¬ q.phases.isEmpty ∧ ∀ ph ∈ q.phases, ¬ ph.tasks.isEmpty := by
        have := hv
        simp [validPlan, List.all_eq_true] at this
        exact ⟨by simpa using this.1, fun ph hph => by simpa using this.2 ph hph⟩
      refine ⟨?_, ?_, ?_⟩
      · rw [hgen]
        simpa [List.isEmpty_iff] using h1.1
      · intro ph hph
        rw [hgen] at hph
        simpa [List.isEmpty_iff] using h1.2 ph hph
      · rintro (h | ⟨q', hq', hv'⟩)
        · exact absurd h (by simp [hcap])
        · simp only [hcap, Option.some.injEq] at hq'
          subst hq'
          exact absurd hv' (by simp [hv])
    · have hgen : generate cap rt fb = fallbackPlan rt := by
        simp [generate, hcap, hv]
      refine ⟨by simp [hgen, fallbackPlan], ?_, ?_⟩
      · intro ph hph
        simp [hgen, fallbackPlan] at hph
        simp [hph]
      · intro _
        refine ⟨hgen, by simp [hgen, fallbackPlan], ?_⟩
        intro ph hph
        simp [hgen, fallbackPlan] at hph
        simp [hph]

/-- Witness for C2 at a concrete failing capability: the generated plan is the
fallback with one phase, one task, and the request text as description. -/
theorem generate_nonempty_and_fallback_witness :
    (generate (fun _ _ => none) "Show me all orders" none).phases ≠ [] ∧
    generate (fun _ _ => none) "Show me all orders" none =
      fallbackPlan "Show me all orders" :=
  ⟨(generate_nonempty_and_fallback (fun _ _ => none) "Show me all orders"
      none).1,
   ((generate_nonempty_and_fallback (fun _ _ => none) "Show me all orders"
      none).2.2 (Or.inl rfl)).1⟩

/-- With no cancellation and an all-succeeding capability, a phase's items
all complete. -/
theorem execTasks_all_ok (cap : String → Except String String)
    (ts : List TaskItem) (n : Nat)
    (h : ∀ it ∈ ts, ∃ v, cap it.description = .ok v) :
    execTasks cap (fun _ => false) n ts =
      ⟨ts.map completeItem, n + ts.length, .completed⟩ := by
  induction ts generalizing n with
  | nil => simp [execTasks]
  | cons it rest ih =>
    obtain ⟨v, hv⟩ := h it (by simp)
    simp [execTasks, hv, ih (n + 1) (fun x hx => h x (by simp [hx]))]
    omega

/-- With no cancellation, a failing item halts the phase walk: the preceding
items complete, the failing item is marked failed with the failure detail,
and the remaining items are untouched. -/
theorem execTasks_fail (cap : String → Except String String)
    (ts1 ts2 : List TaskItem) (t : TaskItem) (e : String) (n : Nat)
    (h1 : ∀ it ∈ ts1, ∃ v, cap it.description = .ok v)
    (hf : cap t.description = .error e) :
    execTasks cap (fun _ => false) n (ts1 ++ t :: ts2) =
      ⟨ts1.map completeItem ++ failItem e t :: ts2, n + ts1.length + 1,
       .failed⟩ := by
  induction ts1 generalizing n with
  | nil => simp [execTasks, hf]
  | cons it rest ih =>
    obtain ⟨v, hv⟩ := h1 it (by simp)
    simp [execTasks, hv, ih (n + 1) (fun x hx => h1 x (by simp [hx]))]
    omega

/-- With no cancellation and an all-succeeding capability, a list of phases
executes to completion. -/
theorem execPhases_all_ok (cap : String → Except String String)
    (phs : List Phase) (n : Nat)
    (h : ∀ it ∈ phaseItems phs, ∃ v, cap it.description = .ok v) :
    execPhases cap (fun _ => false) n phs =
      ⟨phs.map completedPhase, n + (phaseItems phs).length, .completed⟩ := by
  induction phs generalizing n with
  | nil => simp [execPhases, phaseItems]
  | cons ph rest ih =>
    have hph : ∀ it ∈ ph.tasks, ∃ v, cap it.description = .ok v := by
      intro it hit
      exact h it (by simp [phaseItems, hit])
    have hrest : ∀ it ∈ phaseItems rest, ∃ v, cap it.description = .ok v := by
      intro it hit
      exact h it (by simp [phaseItems] at hit ⊢; exact Or.inr hit)
    simp [execPhases, execTasks_all_ok cap ph.tasks n hph,
      ih (n + ph.tasks.length) hrest, completedPhase, phaseItems]
    omega

/-- With no cancellation, an all-succeeding prefix of phases completes and
the walk continues on the remaining phases with the advanced counter. -/
theorem execPhases_append_ok (cap : String → Except String String)
    (phs rest : List Phase) (n : Nat)
    (h : ∀ it ∈ phaseItems phs, ∃ v, cap it.description = .ok v) :
    execPhases cap (fun _ => false) n (phs ++ rest) =
      ⟨phs.map completedPhase ++
        (execPhases cap (fun _ => false) (n + (phaseItems phs).length)
          rest).phases,
       (execPhases cap (fun _ => false) (n + (phaseItems phs).length)
          rest).counter,
       (execPhases cap (fun _ => false) (n + (phaseItems phs).length)
          rest).outcome⟩ := by
  induction phs generalizing n with
  | nil => simp [phaseItems]
  | cons ph tail ih =>
    have hph : ∀ it ∈ ph.tasks, ∃ v, cap it.description = .ok v := by
      intro it hit
      exact h it (by simp [phaseItems, hit])
    have htail : ∀ it ∈ phaseItems tail, ∃ v, cap it.description = .ok v := by
      intro it hit
      exact h it (by simp [phaseItems] at hit ⊢; exact Or.inr hit)
    have hlen : n + ph.tasks.length + (phaseItems tail).length =
        n + (phaseItems (ph :: tail)).length := by
      simp [phaseItems]; omega
    simp [execPhases, execTasks_all_ok cap ph.tasks n hph, ih
      (n + ph.tasks.length) htail, completedPhase, hlen]

/-- C3. With cancellation never requested, when the capability call for a
TaskItem `t` fails during execution of an approved Plan: `t` is marked failed
with its error populated, its owning Phase is marked failed, the items after
`t` in that phase and all subsequent phases are untouched (never executed),
the preceding phases and items are completed, the executor outcome is failed,
and the Task Record ends in state FAILED with the failed Plan retained. -/
theorem executor_failure_containment (cap : String → Except String String)
    (rec : TaskRecord) (pre post : List Phase) (ph : Phase)
    (ts1 ts2 : List TaskItem) (t : TaskItem) (p : Plan) (e : String)
    (hpp : p.phases = pre ++ ph :: post)
    (hts : ph.tasks = ts1 ++ t :: ts2)
    (hpre : ∀ it ∈ phaseItems pre, ∃ v, cap it.description = .ok v)
    (hts1 : ∀ it ∈ ts1, ∃ v, cap it.description = .ok v)
    (hfail : cap t.description = .error e) :
    (executePlan cap (fun _ => false) p).2 = .failed ∧
    (executePlan cap (fun _ => false) p).1.phases =
      pre.map completedPhase ++
        { ph with status := .failed,
                  tasks := ts1.map completeItem ++ failItem e t :: ts2 } ::
          post ∧
    (applyOutcome rec (executePlan cap (fun _ => false) p).1
        (executePlan cap (fun _ => false) p).2).state = .failed ∧
    (applyOutcome rec (executePlan cap (fun _ => false) p).1
        (executePlan cap (fun _ => false) p).2).plan =
      some (executePlan cap (fun _ => false) p).1 := by
  have hmid : execTasks cap (fun _ => false)
      ((phaseItems pre).length) ph.tasks =
      ⟨ts1.map completeItem ++ failItem e t :: ts2,
       (phaseItems pre).length + ts1.length + 1, .failed⟩ := by
    rw [hts]
    exact execTasks_fail cap ts1 ts2 t e _ hts1 hfail
  have hexec : execPhases cap (fun _ => false) 0 p.phases =
      ⟨pre.map completedPhase ++
        { ph with status := .failed,
                  tasks := ts1.map completeItem ++ failItem e t :: ts2 } ::
          post,
       (phaseItems pre).length + ts1.length + 1, .failed⟩ := by
    rw [hpp, execPhases_append_ok cap pre (ph :: post) 0 hpre]
    simp [execPhases, hmid]
  constructor
  · simp [executePlan, hexec]
  constructor
  · simp [executePlan, hexec]
  constructor
  · simp [executePlan, hexec, applyOutcome]
  · simp [executePlan, hexec, applyOutcome]

/-- Witness for C3 at a concrete plan: phase A completes, item b1 fails with
its error recorded, item b2 and the rest stay untouched, and the record ends
FAILED with the plan retained. -/
theorem executor_failure_containment_witness :
    (executePlan demoCap (fun _ => false) demoFailPlan).2 = .failed ∧
    (executePlan demoCap (fun _ => false) demoFailPlan).1.phases =
      [phaseA].map completedPhase ++
        { phaseB with status := .failed,
                      tasks := ([] : List TaskItem).map completeItem ++
                        failItem "boom" itemB1 :: [itemB2] } :: [] ∧
    (applyOutcome ⟨"t", .executing, some demoFailPlan, none, "req"⟩
        (executePlan demoCap (fun _ => false) demoFailPlan).1
        (executePlan demoCap (fun _ => false) demoFailPlan).2).state =
      .failed ∧
    (applyOutcome ⟨"t", .executing, some demoFailPlan, none, "req"⟩
        (executePlan demoCap (fun _ => false) demoFailPlan).1
        (executePlan demoCap (fun _ => false) demoFailPlan).2).plan =
      some (executePlan demoCap (fun _ => false) demoFailPlan).1 :=
  executor_failure_containment demoCap
    ⟨"t", .executing, some demoFailPlan, none, "req"⟩
    [phaseA] [] phaseB [] [itemB2] itemB1 demoFailPlan "boom"
    rfl rfl
    (by
      intro it hit
      simp [phaseItems, phaseA, itemA1] at hit
      exact ⟨"done", by simp [hit, demoCap]⟩)
    (by intro it hit; exact absurd hit (List.not_mem_nil it))
    (by simp [demoCap, itemB1])

/-- Unfolding lemma: `phaseItems` on a cons. -/
theorem phaseItems_cons (ph : Phase) (phs : List Phase) :
    phaseItems (ph :: phs) = ph.tasks ++ phaseItems phs := by
  simp [phaseItems]

/-- Skipping whole phases skips exactly their items. -/
theorem phaseItems_skipPhase (phs : List Phase) :
    phaseItems (phs.map skipPhase) = (phaseItems phs).map skipItem := by
  induction phs with
  | nil => simp [phaseItems]
  | cons ph rest ih =>
    simp only [List.map_cons, phaseItems_cons, skipPhase, List.map_append, ih]

/-- Behaviour of the phase-item walk under a cancel signal set from boundary
`c`: if the signal fires inside the item list, the items before the firing
boundary complete and the rest are skipped with outcome canceled; otherwise
all items complete. -/
theorem execTasks_cancel (cap : String → Except String String) (c : Nat)
    (ts : List TaskItem) (n : Nat) (hn : n ≤ c)
    (h : ∀ it ∈ ts.take (c - n), ∃ v, cap it.description = .ok v) :
    (if c - n < ts.length then
      execTasks cap (cancelFrom c) n ts =
        ⟨(ts.take (c - n)).map completeItem ++
          (ts.drop (c - n)).map skipItem, c, .canceled⟩
     else
      execTasks cap (cancelFrom c) n ts =
        ⟨ts.map completeItem, n + ts.length, .completed⟩) := by
  induction ts generalizing n with
  | nil => simp [execTasks]
  | cons it rest ih =>
    rcases Nat.lt_or_ge n c with hlt | hge
    · have hcanc : cancelFrom c n = false := by
        simp [cancelFrom]; omega
      obtain ⟨k, hk⟩ : ∃ k, c - n = k + 1 := ⟨c - n - 1, by omega⟩
      obtain ⟨v, hv⟩ := h it (by rw [hk]; simp)
      have hk1 : c - (n + 1) = k := by omega
      have hrest : ∀ x ∈ rest.take (c - (n + 1)), ∃ v, cap x.description = .ok v := by
        rw [hk1]
        intro x hx
        exact h x (by rw [hk]; simp; right; exact hx)
      have ihr := ih (n + 1) (by omega) hrest
      rw [hk1] at ihr
      by_cases hlen : k < rest.length
      · rw [if_pos (by simp [hk]; omega)]
        rw [if_pos hlen] at ihr
        simp [execTasks, hcanc, hv, ihr, hk, List.take_succ_cons,
          List.drop_succ_cons]
      · rw [if_neg (by simp [hk]; omega)]
        rw [if_neg hlen] at ihr
        simp [execTasks, hcanc, hv, ihr]
        try omega
    · have hnc : n = c := by omega
      subst hnc
      rw [if_pos (by simp)]
      simp [execTasks, cancelFrom, Nat.sub_self]

/-- Behaviour of the phase walk under a cancel signal set from boundary `c`:
if the signal fires among the plan's items, the walk ends canceled with the
items before the firing boundary completed, every remaining item skipped, and
every produced phase either completed or skipped; otherwise all phases
complete. -/
theorem execPhases_cancel (cap : String → Except String String) (c : Nat)
    (phs : List Phase) (n : Nat) (hn : n ≤ c)
    (h : ∀ it ∈ (phaseItems phs).take (c - n), ∃ v, cap it.description = .ok v) :
    (if c - n < (phaseItems phs).length then
      (execPhases cap (cancelFrom c) n phs).outcome = .canceled ∧
      phaseItems (execPhases cap (cancelFrom c) n phs).phases =
        ((phaseItems phs).take (c - n)).map completeItem ++
        ((phaseItems phs).drop (c - n)).map skipItem ∧
      ∀ q ∈ (execPhases cap (cancelFrom c) n phs).phases,
        q.status = .completed ∨ q.status = .skipped
     else
      execPhases cap (cancelFrom c) n phs =
        ⟨phs.map completedPhase, n + (phaseItems phs).length, .completed⟩) := by
  induction phs generalizing n with
  | nil => simp [execPhases, phaseItems]
  | cons ph rest ih =>
    have hsplit : phaseItems (ph :: rest) = ph.tasks ++ phaseItems rest :=
      phaseItems_cons ph rest
    have hA : ∀ it ∈ ph.tasks.take (c - n), ∃ v, cap it.description = .ok v := by
      intro it hit
      apply h
      rw [hsplit, List.take_append_eq_append_take]
      exact List.mem_append_left _ hit
    have tlem := execTasks_cancel cap c ph.tasks n hn hA
    by_cases hinA : c - n < ph.tasks.length
    · rw [if_pos hinA] at tlem
      rw [if_pos (by rw [hsplit]; simp; omega)]
      have hres : (execPhases cap (cancelFrom c) n (ph :: rest)).phases =
          ⟨ph.id, ph.name, ph.description,
            (ph.tasks.take (c - n)).map completeItem ++
              (ph.tasks.drop (c - n)).map skipItem,
            .skipped⟩ :: rest.map skipPhase := by
        simp [execPhases, tlem]
      refine ⟨by simp [execPhases, tlem], ?_, ?_⟩
      · rw [hres, phaseItems_cons, phaseItems_skipPhase, hsplit,
          List.take_append_of_le_length (by omega),
          List.drop_append_eq_append_drop,
          show c - n - ph.tasks.length = 0 by omega]
        simp [List.append_assoc]
      · intro q hq
        rw [hres] at hq
        rcases List.mem_cons.mp hq with hq | hq
        · right; rw [hq]
        · right
          obtain ⟨q', hq', rfl⟩ := List.mem_map.mp hq
          simp [skipPhase]
    · rw [if_neg hinA] at tlem
      have hge : ph.tasks.length ≤ c - n := Nat.le_of_not_lt hinA
      have hn' : n + ph.tasks.length ≤ c := by omega
      have hsub : c - n - ph.tasks.length = c - (n + ph.tasks.length) := by
        omega
      have hB : ∀ it ∈ (phaseItems rest).take (c - (n + ph.tasks.length)),
          ∃ v, cap it.description = .ok v := by
        intro it hit
        apply h
        rw [hsplit, List.take_append_eq_append_take, hsub]
        exact List.mem_append_right _ hit
      have ihr := ih (n + ph.tasks.length) hn' hB
      by_cases hinB : c - (n + ph.tasks.length) < (phaseItems rest).length
      · rw [if_pos hinB] at ihr
        obtain ⟨ho, hitems, hst⟩ := ihr
        rw [if_pos (by rw [hsplit]; simp; omega)]
        have hres : (execPhases cap (cancelFrom c) n (ph :: rest)).phases =
            ⟨ph.id, ph.name, ph.description, ph.tasks.map completeItem,
              .completed⟩ ::
            (execPhases cap (cancelFrom c) (n + ph.tasks.length) rest).phases ∧
            (execPhases cap (cancelFrom c) n (ph :: rest)).outcome =
              (execPhases cap (cancelFrom c) (n + ph.tasks.length)
                rest).outcome := by
          constructor <;> simp [execPhases, tlem]
        refine ⟨by rw [hres.2, ho], ?_, ?_⟩
        · rw [hres.1, phaseItems_cons, hitems, hsplit,
            List.take_append_eq_append_take, List.drop_append_eq_append_drop,
            List.take_of_length_le hge, List.drop_eq_nil_of_le hge, hsub]
          simp [List.append_assoc]
        · intro q hq
          rw [hres.1] at hq
          rcases List.mem_cons.mp hq with hq | hq
          · left; rw [hq]
          · exact hst q hq
      · rw [if_neg hinB] at ihr
        rw [if_neg (by rw [hsplit]; simp; omega)]
        have hcount : n + ph.tasks.length + (phaseItems rest).length =
            n + (phaseItems (ph :: rest)).length := by
          rw [hsplit]; simp; omega
        simp [execPhases, tlem, ihr, completedPhase]
        exact hcount

/-- C4. When cancellation is requested at boundary `c` within an executing
Plan (with the items before that boundary succeeding), the executor stops at
that TaskItem boundary: the items already run are completed, the
not-yet-started item and every remaining TaskItem are marked skipped, every
phase of the result is completed or skipped (none pending), no TaskItem of
the result is pending, and the executor returns outcome canceled. -/
theorem executor_cancellation (cap : String → Except String String)
    (p : Plan) (c : Nat)
    (hc : c < (allItems p).length)
    (hok : ∀ it ∈ (allItems p).take c, ∃ v, cap it.description = .ok v) :
    (executePlan cap (cancelFrom c) p).2 = .canceled ∧
    allItems (executePlan cap (cancelFrom c) p).1 =
      ((allItems p).take c).map completeItem ++
      ((allItems p).drop c).map skipItem ∧
    (∀ q ∈ (executePlan cap (cancelFrom c) p).1.phases,
      q.status = .completed ∨ q.status = .skipped) ∧
    (∀ q ∈ (executePlan cap (cancelFrom c) p).1.phases, ∀ it ∈ q.tasks,
      it.status ≠ .pending) := by
  have main := execPhases_cancel cap c p.phases 0 (Nat.zero_le c)
    (by simpa [allItems] using hok)
  rw [if_pos (by simpa [allItems] using hc)] at main
  obtain ⟨ho, hitems, hst⟩ := main
  have hexec1 : (executePlan cap (cancelFrom c) p).1.phases =
      (execPhases cap (cancelFrom c) 0 p.phases).phases := by
    simp [executePlan]
  have hexec2 : (executePlan cap (cancelFrom c) p).2 =
      (execPhases cap (cancelFrom c) 0 p.phases).outcome := by
    simp [executePlan]
  refine ⟨by rw [hexec2]; simpa using ho, ?_, ?_, ?_⟩
  · rw [allItems, hexec1]
    simpa [allItems] using hitems
  · intro q hq
    rw [hexec1] at hq
    exact hst q hq
  · intro q hq it hit
    have hmem : it ∈ phaseItems (executePlan cap (cancelFrom c) p).1.phases := by
      rw [phaseItems]
      exact List.mem_flatMap.mpr ⟨q, hq, hit⟩
    rw [hexec1] at hmem
    rw [hitems] at hmem
    rcases List.mem_append.mp hmem with hm | hm
    · obtain ⟨x, _, rfl⟩ := List.mem_map.mp hm
      simp [completeItem]
    · obtain ⟨x, _, rfl⟩ := List.mem_map.mp hm
      simp [skipItem]

/-- Witness for C4 at a concrete plan: cancellation at boundary 1 of the
three-item demo plan completes the first item, skips the remaining two, and
returns outcome canceled. -/
theorem executor_cancellation_witness :
    (executePlan (fun _ => Except.ok "done") (cancelFrom 1) demoFailPlan).2 =
      .canceled ∧
    allItems (executePlan (fun _ => Except.ok "done") (cancelFrom 1)
        demoFailPlan).1 =
      ((allItems demoFailPlan).take 1).map completeItem ++
      ((allItems demoFailPlan).drop 1).map skipItem :=
  ⟨(executor_cancellation (fun _ => Except.ok "done") demoFailPlan 1
      (by decide) (fun it _ => ⟨"done", rfl⟩)).1,
   (executor_cancellation (fun _ => Except.ok "done") demoFailPlan 1
      (by decide) (fun it _ => ⟨"done", rfl⟩)).2.1⟩

/-- C9 counterexample. Submitting the non-empty feedback
" add a date filter " leads to a plan-generation call that receives the
trimmed string "add a date filter", which differs from the user's submitted
input: the feedback is not carried verbatim character for character. -/
theorem reject_feedback_not_verbatim_cx :
    rejectFlow probeCap awaitingRecord (some "t1") " add a date filter " =
      some { id := "probe", description := "add a date filter"
             phases := [probePhase], createdAt := "0", approvedAt := none } ∧
    "add a date filter" ≠ " add a date filter " := by
  constructor
  · decide
  · decide

/-- C9 as amended. For every rejection with feedback whose trimmed form is
non-empty: PlanDisplay passes on the trimmed feedback, rejectPlan's request
body carries that trimmed string verbatim, and the subsequent plan-generation
call receives exactly the trimmed feedback. -/
theorem reject_feedback_trimmed (cap : String → Option String → Option Plan)
    (r : TaskRecord) (tid typed : String)
    (hr : r.state = .awaitingApproval) (hne : jsTrim typed ≠ "") :
    handleReject typed = some (jsTrim typed) ∧
    (rejectPlanRequestBody (jsTrim typed)).feedback = jsTrim typed ∧
    rejectFlow cap r (some tid) typed =
      some (generate cap r.requestText (some (jsTrim typed))) := by
  refine ⟨by simp [handleReject, hne], rfl, ?_⟩
  simp [rejectFlow, handleReject, hne, handleRejectPlan,
    rejectPlanRequestBody, managerReject, applyControl, hr, regenerate]

/-- Witness for C9's amended theorem at a concrete rejection. -/
theorem reject_feedback_trimmed_witness :
    rejectFlow probeCap awaitingRecord (some "t1") " fix it" =
      some (generate probeCap awaitingRecord.requestText
        (some (jsTrim " fix it"))) :=
  (reject_feedback_trimmed probeCap awaitingRecord "t1" " fix it" rfl
    (by decide)).2.2

/-- Splitting an appended buffer: the complete lines of `a` stay complete,
and `a`'s trailing segment continues into `b`. -/
theorem splitLines_append (a b : List Char) :
    splitLines (a ++ b) =
      ((splitLines a).1 ++ (splitLines ((splitLines a).2 ++ b)).1,
       (splitLines ((splitLines a).2 ++ b)).2) := by
  induction a with
  | nil => simp [splitLines]
  | cons c a' ih =>
    by_cases hc : c = '\n'
    · subst hc
      simp [splitLines, ih]
    · cases hp : (splitLines a').1 with
      | nil =>
        have hQ : splitLines (a' ++ b) =
            splitLines ((splitLines a').2 ++ b) := by
          rw [ih, hp]
          simp
        have hL : (c :: a') ++ b = c :: (a' ++ b) := rfl
        have hR : splitLines (c :: a') = ([], c :: (splitLines a').2) := by
          simp [splitLines, hc, hp]
        rw [hL, hR]
        show splitLines (c :: (a' ++ b)) = _
        simp only [splitLines, hQ]
        simp
      | cons l ls =>
        have hR : splitLines (c :: a') =
            ((c :: l) :: ls, (splitLines a').2) := by
          simp [splitLines, hc, hp]
        have hL : (c :: a') ++ b = c :: (a' ++ b) := rfl
        rw [hL, hR]
        show splitLines (c :: (a' ++ b)) = _
        simp only [splitLines, ih, hp]
        simp [hc]

/-- The scanner distributes over an append of line lists, threading the
accumulator. -/
theorem procLines_append {J : Type} (parse : List Char → Option J)
    (xs ys : List (List Char)) (s : ScanState) :
    procLines parse s (xs ++ ys) =
      ((procLines parse (procLines parse s xs).1 ys).1,
       (procLines parse s xs).2 ++
         (procLines parse (procLines parse s xs).1 ys).2) := by
  induction xs generalizing s with
  | nil => simp [procLines]
  | cons l xs' ih => simp [procLines, ih, List.append_assoc]

/-- The scanner's behaviour depends only on the `currentEvent` component of
the accumulator: `currentData` is overwritten before every read. -/
theorem procLines_ev_eq {J : Type} (parse : List Char → Option J)
    (ls : List (List Char)) :
    ∀ s₁ s₂ : ScanState, s₁.currentEvent = s₂.currentEvent →
    (procLines parse s₁ ls).2 = (procLines parse s₂ ls).2 ∧
    (procLines parse s₁ ls).1.currentEvent =
      (procLines parse s₂ ls).1.currentEvent := by
  induction ls with
  | nil =>
    intro s₁ s₂ h
    simp [procLines, h]
  | cons l rest ih =>
    intro s₁ s₂ h
    by_cases he : l.take 7 = evHeader
    · have e1 : procLine parse s₁ l = (⟨l.drop 7, s₁.currentData⟩, []) := by
        simp [procLine, he]
      have e2 : procLine parse s₂ l = (⟨l.drop 7, s₂.currentData⟩, []) := by
        simp [procLine, he]
      obtain ⟨ho, hs⟩ := ih ⟨l.drop 7, s₁.currentData⟩
        ⟨l.drop 7, s₂.currentData⟩ rfl
      simp [procLines, e1, e2, ho, hs]
    · by_cases hd : l.take 6 = dtHeader
      · by_cases hcond : s₁.currentEvent ≠ [] ∧ l.drop 6 ≠ []
        · have hcond₂ : s₂.currentEvent ≠ [] ∧ l.drop 6 ≠ [] := by
            rw [← h]; exact hcond
          cases hp : parse (l.drop 6) with
          | some j =>
            have e1 : procLine parse s₁ l =
                (⟨[], []⟩, [(s₁.currentEvent, j)]) := by
              simp [procLine, he, hd, hcond, hp]
            have e2 : procLine parse s₂ l =
                (⟨[], []⟩, [(s₂.currentEvent, j)]) := by
              simp [procLine, he, hd, hcond₂, hp]
            obtain ⟨ho, hs⟩ := ih ⟨[], []⟩ ⟨[], []⟩ rfl
            simp [procLines, e1, e2, ho, hs, h]
          | none =>
            have e1 : procLine parse s₁ l = (⟨[], []⟩, []) := by
              simp [procLine, he, hd, hcond, hp]
            have e2 : procLine parse s₂ l = (⟨[], []⟩, []) := by
              simp [procLine, he, hd, hcond₂, hp]
            obtain ⟨ho, hs⟩ := ih ⟨[], []⟩ ⟨[], []⟩ rfl
            simp [procLines, e1, e2, ho, hs]
        · have hcond₂ : ¬ (s₂.currentEvent ≠ [] ∧ l.drop 6 ≠ []) := by
            rw [← h]; exact hcond
          have e1 : procLine parse s₁ l =
              (⟨s₁.currentEvent, l.drop 6⟩, []) := by
            simp only [procLine, if_neg he, if_pos hd]
            rw [if_neg hcond]
          have e2 : procLine parse s₂ l =
              (⟨s₂.currentEvent, l.drop 6⟩, []) := by
            simp only [procLine, if_neg he, if_pos hd]
            rw [if_neg hcond₂]
          obtain ⟨ho, hs⟩ := ih ⟨s₁.currentEvent, l.drop 6⟩
            ⟨s₂.currentEvent, l.drop 6⟩ h
          simp [procLines, e1, e2, ho, hs]
      · have e1 : procLine parse s₁ l = (s₁, []) := by
          simp [procLine, he, hd]
        have e2 : procLine parse s₂ l = (s₂, []) := by
          simp [procLine, he, hd]
        obtain ⟨ho, hs⟩ := ih s₁ s₂ h
        simp [procLines, e1, e2, ho, hs]

/-- Scanning a line window from the fresh accumulator yields an in-order
subsequence of what scanning it from any carried-over accumulator yields. -/
theorem procLines_init_sublist {J : Type} (parse : List Char → Option J)
    (ls : List (List Char)) :
    ∀ s : ScanState,
    List.Sublist (procLines parse initScan ls).2 (procLines parse s ls).2 := by
  induction ls with
  | nil =>
    intro s
    simp [procLines]
  | cons l rest ih =>
    intro s
    by_cases he : l.take 7 = evHeader
    · have e1 : procLine parse initScan l =
          (⟨l.drop 7, initScan.currentData⟩, []) := by
        simp [procLine, he]
      have e2 : procLine parse s l = (⟨l.drop 7, s.currentData⟩, []) := by
        simp [procLine, he]
      have ho := (procLines_ev_eq parse rest ⟨l.drop 7, initScan.currentData⟩
        ⟨l.drop 7, s.currentData⟩ rfl).1
      simp only [procLines, e1, e2, List.nil_append]
      rw [ho]
    · by_cases hd : l.take 6 = dtHeader
      · have e1 : procLine parse initScan l =
            (⟨[], l.drop 6⟩, []) := by
          simp [procLine, he, hd, initScan]
        by_cases hcond : s.currentEvent ≠ [] ∧ l.drop 6 ≠ []
        · have hev : ∀ dt : List Char,
              (procLines parse (⟨[], dt⟩ : ScanState) rest).2 =
              (procLines parse initScan rest).2 := by
            intro dt
            exact (procLines_ev_eq parse rest ⟨[], dt⟩ initScan rfl).1
          cases hp : parse (l.drop 6) with
          | some j =>
            have e2 : procLine parse s l =
                (⟨[], []⟩, [(s.currentEvent, j)]) := by
              simp [procLine, he, hd, hcond, hp]
            simp only [procLines, e1, e2, List.nil_append]
            rw [hev (l.drop 6), ← hev []]
            exact List.Sublist.cons _ (List.Sublist.refl _)
          | none =>
            have e2 : procLine parse s l = (⟨[], []⟩, []) := by
              simp [procLine, he, hd, hcond, hp]
            simp only [procLines, e1, e2, List.nil_append]
            rw [hev (l.drop 6), ← hev []]
        · have e2 : procLine parse s l =
              (⟨s.currentEvent, l.drop 6⟩, []) := by
            simp only [procLine, if_neg he, if_pos hd]
            rw [if_neg hcond]
          simp only [procLines, e1, e2, List.nil_append]
          have hev : (procLines parse (⟨[], l.drop 6⟩ : ScanState) rest).2 =
              (procLines parse initScan rest).2 :=
            (procLines_ev_eq parse rest ⟨[], l.drop 6⟩ initScan rfl).1
          rw [hev]
          exact ih ⟨s.currentEvent, l.drop 6⟩
      · have e1 : procLine parse initScan l = (initScan, []) := by
          simp [procLine, he, hd]
        have e2 : procLine parse s l = (s, []) := by
          simp [procLine, he, hd]
        simp only [procLines, e1, e2, List.nil_append]
        exact ih s

/-- The read loop's yields form an in-order subsequence of the scan of the
whole stream, for any starting buffer and any carried accumulator. -/
theorem streamLoop_sublist {J : Type} (parse : List Char → Option J)
    (chunks : List (List Char)) :
    ∀ (buf : List Char) (s : ScanState),
    List.Sublist (streamLoop parse buf chunks)
      (procLines parse s (splitLines (buf ++ chunks.flatten)).1).2 := by
  induction chunks with
  | nil =>
    intro buf s
    simp [streamLoop]
  | cons ch rest ih =>
    intro buf s
    have hassoc : buf ++ (ch :: rest).flatten = (buf ++ ch) ++ rest.flatten := by
      simp [List.append_assoc]
    rw [hassoc, splitLines_append (buf ++ ch) rest.flatten, procLines_append]
    exact List.Sublist.append
      (procLines_init_sublist parse (splitLines (buf ++ ch)).1 s)
      (ih (splitLines (buf ++ ch)).2 _)

/-- C8. The events streamChat yields for any chunked delivery of an SSE byte
stream form an in-order subsequence of the event/data pairs occurring in the
stream: delivered events appear in exactly the order their line pairs occur,
never reordered or coalesced. -/
theorem streamChat_delivery_order {J : Type} (parse : List Char → Option J)
    (chunks : List (List Char)) :
    List.Sublist (streamChat parse chunks)
      (streamEventOccurrences parse chunks.flatten) := by
  have h := streamLoop_sublist parse chunks [] initScan
  simpa [streamChat, streamEventOccurrences] using h

/-- C10. An event whose data payload fails to parse is silently skipped: the
pair yields nothing, raises nothing, the scan continues with a reset
accumulator, and the subsequent lines produce exactly the events of a clean
scan, in order. -/
theorem invalid_json_event_skipped {J : Type} (parse : List Char → Option J)
    (e d : List Char) (post : List (List Char)) (s : ScanState)
    (he : e ≠ []) (hd : d ≠ []) (hp : parse d = none) :
    (procLines parse s (mkEventLine e :: mkDataLine d :: post)).2 =
      (procLines parse initScan post).2 := by
  have hlenE : evHeader.length = 7 := rfl
  have hlenD : dtHeader.length = 6 := rfl
  have h1 : (mkEventLine e).take 7 = evHeader := by
    rw [mkEventLine, ← hlenE, List.take_left]
  have h1d : (mkEventLine e).drop 7 = e := by
    rw [mkEventLine, ← hlenE, List.drop_left]
  have h2 : ¬ (mkDataLine d).take 7 = evHeader := by
    rw [mkDataLine]
    cases d with
    | nil => exact absurd rfl hd
    | cons c cs => simp [dtHeader, evHeader, List.take_append_eq_append_take]
  have h3 : (mkDataLine d).take 6 = dtHeader := by
    rw [mkDataLine, ← hlenD, List.take_left]
  have h3d : (mkDataLine d).drop 6 = d := by
    rw [mkDataLine, ← hlenD, List.drop_left]
  have e1 : procLine parse s (mkEventLine e) =
      (⟨e, s.currentData⟩, []) := by
    simp [procLine, h1, h1d]
  have e2 : procLine parse (⟨e, s.currentData⟩ : ScanState) (mkDataLine d) =
      (⟨[], []⟩, []) := by
    simp [procLine, h2, h3, h3d, he, hd, hp]
  simp only [procLines, e1, e2, List.nil_append]
  rfl

/-- Witness for C10: a malformed pair (payload "x", unparseable) before a
well-formed pair (payload "y") is skipped, and the scan equals the clean scan
of the remaining lines. -/
theorem invalid_json_event_skipped_witness :
    (procLines (fun l => if l = ['y'] then some 0 else (none : Option Nat))
        initScan
        (mkEventLine ['m'] :: mkDataLine ['x'] ::
          [mkEventLine ['m'], mkDataLine ['y']])).2 =
      (procLines (fun l => if l = ['y'] then some 0 else (none : Option Nat))
        initScan [mkEventLine ['m'], mkDataLine ['y']]).2 :=
  invalid_json_event_skipped (fun l => if l = ['y'] then some 0 else none)
    ['m'] ['x'] [mkEventLine ['m'], mkDataLine ['y']] initScan
    (by decide) (by decide) (by decide)

end OrdersAgent
